import Mathlib

set_option maxHeartbeats 1000000

namespace NilearnSpec

/-! Shallow embedding of the permutation-testing core of
`nilearn.mass_univariate.permuted_least_squares` (the sparse
threshold accumulator `GrowableSparseArray`, the statistic engine,
the permutation-scheme choice and the p-value finalization).
The implementation file itself is absent from the sources; every
definition below is modelled from the specification, with the
repository's test suite `test_permuted_least_squares.py` as the
authority on concrete behaviour wherever the two disagree.
Scores are embedded as rationals so that every structural
operation is executable. -/

/-- Modelled from the spec: a Score Entry of the missing
`permuted_least_squares.py` — a tuple (iteration id, tested-variable id,
target id, score), cf. spec section 3. -/
structure ScoreEntry where
  iter_id : Nat
  x_id : Nat
  y_id : Nat
  score : Rat
deriving DecidableEq

/-- Modelled from the spec: the `GrowableSparseArray` accumulator of the
missing `permuted_least_squares.py` — an insertion-ordered collection of
score entries plus a fixed threshold and the expected number of
iterations `n_iter` used to validate merges (spec section 3).  The
geometric growth strategy of the backing storage is a performance
detail and is not modelled; the entry list is the observable state. -/
structure GrowableSparseArray where
  n_iter : Nat
  threshold : Rat
  entries : List ScoreEntry
deriving DecidableEq

/-- Modelled from the spec: the entries retained from one appended score
vector — exactly those whose score meets the threshold, the j-th score
receiving target id `yOffset + j`, tested-variable id 0 and the given
iteration id.  The inclusive comparison (score equal to the threshold is
kept) is pinned by `test_gsarray_append_data`, where threshold 8 retains
a score of exactly 8. -/
def retained (thr : Rat) (iterId : Nat) (yOffset : Nat) : List Rat → List ScoreEntry
  | [] => []
  | v :: rest =>
      (if thr ≤ v then [ScoreEntry.mk iterId 0 yOffset v] else [])
        ++ retained thr iterId (yOffset + 1) rest

/-- Modelled from the spec: `GrowableSparseArray.append(iter_id, data,
y_offset)` — filters the score vector by the accumulator's threshold and
appends the surviving entries in target-id order (spec section 4.4). -/
def GrowableSparseArray.append (g : GrowableSparseArray) (iterId : Nat)
    (scores : List Rat) (yOffset : Nat) : GrowableSparseArray :=
  GrowableSparseArray.mk g.n_iter g.threshold
    (g.entries ++ retained g.threshold iterId yOffset scores)

/-- Modelled from the spec: `GrowableSparseArray.get_data()` returns the
materialized entries in insertion order (spec section 4.4). -/
def GrowableSparseArray.getData (g : GrowableSparseArray) : List ScoreEntry :=
  g.entries

/-- Modelled from the spec: the failure modes of `merge` — a type error
for a non-accumulator argument and a configuration error for mismatched
`n_iter` (spec sections 4.4 and 7). -/
inductive MergeError where
  | typeError
  | nIterMismatch
deriving DecidableEq

/-- Modelled from the spec: merging a single source accumulator into
`self`.  Mismatched `n_iter` is a configuration error.  A source whose
threshold is lower than the target's has its entries filtered by the
target's threshold; the effective threshold of the result is the larger
of the two.  The information-loss warning (returned as the Boolean
component) fires when the source's threshold is the higher one, so that
the merged target is no longer complete below that threshold — this
direction is pinned by `test_gsarray_merge`, which asserts a warning
when a source of threshold 1 is merged into a target of threshold 0. -/
def GrowableSparseArray.merge1 (self other : GrowableSparseArray) :
    Except MergeError (GrowableSparseArray × Bool) :=
  if other.n_iter ≠ self.n_iter then Except.error MergeError.nIterMismatch
  else
    let kept := if other.threshold < self.threshold
      then other.entries.filter (fun e => self.threshold ≤ e.score)
      else other.entries
    Except.ok
      (GrowableSparseArray.mk self.n_iter (max self.threshold other.threshold)
        (self.entries ++ kept),
       self.threshold < other.threshold)

/-- Modelled from the spec: merging a list of source accumulators in
order, any raised warning being reported for the whole merge. -/
def GrowableSparseArray.mergeList (self : GrowableSparseArray) :
    List GrowableSparseArray → Except MergeError (GrowableSparseArray × Bool)
  | [] => Except.ok (self, false)
  | g :: gs =>
      match self.merge1 g with
      | Except.error e => Except.error e
      | Except.ok (s2, w) =>
          match s2.mergeList gs with
          | Except.error e => Except.error e
          | Except.ok (s3, w2) => Except.ok (s3, w || w2)

/-- Modelled from the spec: the argument of `merge` — a single
accumulator, a list of accumulators, or (for the dynamically typed
original) any other value, which is a type error. -/
inductive MergeArg where
  | one (g : GrowableSparseArray)
  | many (l : List GrowableSparseArray)
  | notAnAccumulator

/-- Modelled from the spec: `GrowableSparseArray.merge` dispatching on
its argument; a non-accumulator argument fails with a type error and
leaves the target untouched (an `Except.error` result carries no
accumulator, modelling an exception raised before any mutation). -/
def GrowableSparseArray.merge (self : GrowableSparseArray) :
    MergeArg → Except MergeError (GrowableSparseArray × Bool)
  | MergeArg.one g => self.mergeList [g]
  | MergeArg.many l => self.mergeList l
  | MergeArg.notAnAccumulator => Except.error MergeError.typeError

/-- Retained-entry multiset of a merge result (empty on error); used to
state order-independence of merging. -/
def mergedEntries : Except MergeError (GrowableSparseArray × Bool) → Multiset ScoreEntry
  | Except.ok (g, _) => (g.entries : Multiset ScoreEntry)
  | Except.error _ => 0

/-- Warning flag of a merge result (false on error). -/
def mergeWarned : Except MergeError (GrowableSparseArray × Bool) → Bool
  | Except.ok (_, w) => w
  | Except.error _ => false

/-- Modelled from the spec: the count of null-distribution values that
meet or exceed a true score, the numerator (before +1 smoothing) of the
FINALIZE step of the missing orchestrator (spec section 4.5). -/
def nullCountGE (h0 : List Rat) (s : Rat) : Nat :=
  (h0.filter (fun v => s ≤ v)).length

/-- Modelled from the spec: the corrected p-value of the FINALIZE step
of the missing orchestrator, reported in -log10 form —
`-log10((count(null_distribution >= s) + 1) / (n_perm + 1))` with
`n_perm` the length of the null distribution (spec section 4.5). -/
noncomputable def negLog10PValue (h0 : List Rat) (s : Rat) : Real :=
  - Real.logb 10 (((nullCountGE h0 s : Real) + 1) / ((h0.length : Real) + 1))

/-- Dot product of two rational vectors. -/
def dot {n : Nat} (u v : Fin n → Rat) : Rat := ∑ i, u i * v i

/-- Modelled from the spec: one step of the orthogonal projections the
missing statistic engine computes — the residual of `y` after
regressing out the single column `c` (a degenerate zero-norm column is
skipped, spec sections 2 and 4.2). -/
def residualize {n : Nat} (y c : Fin n → Rat) : Fin n → Rat :=
  if dot c c = 0 then y else fun i => y i - dot c y / dot c c * c i

/-- Modelled from the spec: one column of the design, orthogonalized
against the (already orthogonalized) columns processed before it —
classical Gram-Schmidt. -/
def orthoStep {n : Nat} (us : List (Fin n → Rat)) (c : Fin n → Rat) : Fin n → Rat :=
  us.foldl (fun acc u => residualize acc u) c

/-- Modelled from the spec: the orthogonalized design columns, built
left to right. -/
def orthoBasis {n : Nat} (cols : List (Fin n → Rat)) : List (Fin n → Rat) :=
  cols.foldl (fun us c => us ++ [orthoStep us c]) []

/-- Modelled from the spec: the residual of `y` after regressing out the
span of `cols`, obtained by projecting out each orthogonalized design
column in turn (spec sections 2 and 4.2). -/
def residual {n : Nat} (y : Fin n → Rat) (cols : List (Fin n → Rat)) : Fin n → Rat :=
  (orthoBasis cols).foldl (fun acc u => residualize acc u) y

/-- Modelled from the spec: the statistic engine of the missing
`permuted_least_squares.py` — the F-statistic, per target, for the
improvement in residual sum of squares from adding the tested column to
the reduced (confounds-only) model,
`F = ((RSS_reduced - RSS_full) / df_tested) / (RSS_full / df_residual)`
with one tested column, computed after the confounds have been
regressed out of both the tested column and the target (spec sections
2 and 4.2).  Rational division by zero is zero, standing in for the
NaN/infinity conventions of the degenerate cases; the theorems below
carry explicit nondegeneracy hypotheses. -/
def fScore {n : Nat} (tested y : Fin n → Rat) (reduced : List (Fin n → Rat)) : Rat :=
  let ry := residual y reduced
  let rx := residual tested reduced
  let rssRed := dot ry ry
  let rssFull := rssRed - dot rx ry ^ 2 / dot rx rx
  (rssRed - rssFull) / (rssFull / ((n : Rat) - 1 - reduced.length))

/-- The all-ones (intercept) column. -/
def onesV (n : Nat) : Fin n → Rat := fun _ => 1

/-- Modelled from the spec: the constant-tested-variable check of the
missing `permuted_ols` — whether the single tested column is constant,
i.e. is itself an intercept term (spec section 4.3). -/
def isConstantVec {n : Nat} (v : Fin n → Rat) : Bool :=
  decide (∀ i j, v i = v j)

/-- Modelled from the spec: the design builder plus statistic engine of
the missing `permuted_ols` on the true (unpermuted) labeling — when
`modelIntercept` is set and the tested column is not itself constant, an
all-ones intercept column is appended to the confounds; the F-score of
the tested column against the target is then computed (spec sections
4.1 and 4.2, with the constant-tested-variable exemption pinned by the
`test_permuted_ols_intercept_*` tests, which assert the flag has no
effect for a constant tested column). -/
def permutedOlsTrueScore {n : Nat} (tested y : Fin n → Rat)
    (confounds : List (Fin n → Rat)) (modelIntercept : Bool) : Rat :=
  let reduced :=
    if modelIntercept && !(isConstantVec tested) then confounds ++ [onesV n]
    else confounds
  fScore tested y reduced

/-- Reference implementation, from the spec's words: the scikit-learn
`f_regression` F-test without centering — squared correlation `c2`
between the tested column and the target, mapped to
`c2 / (1 - c2) * (n - 1)`. -/
def fRegressionNoCenter {n : Nat} (x y : Fin n → Rat) : Rat :=
  let c2 := dot x y ^ 2 / (dot x x * dot y y)
  c2 / (1 - c2) * ((n : Rat) - 1)

/-- Centering a vector by subtracting its mean. -/
def centerV {n : Nat} (v : Fin n → Rat) : Fin n → Rat :=
  fun i => v i - (∑ j, v j) / n

/-- Reference implementation, from the spec's words: the scikit-learn
`f_regression` F-test with centering — both variates are centered and
one further residual degree of freedom is spent on the intercept. -/
def fRegressionCenter {n : Nat} (x y : Fin n → Rat) : Rat :=
  let xc := centerV x
  let yc := centerV y
  let c2 := dot xc yc ^ 2 / (dot xc xc * dot yc yc)
  c2 / (1 - c2) * ((n : Rat) - 2)

/-- Reference implementation, from the spec's words: the Wald-form
F-test of the first coefficient in the two-column OLS design `[x, z]`
(as computed by `statsmodels.OLS(...).f_test([[1, 0]])`): the
coefficients solve the 2-by-2 normal equations explicitly, the residual
sum of squares comes from the fitted coefficients, and
`F = b1^2 / (sigma2 * inv11)` with `inv11` the (1,1) entry of the
inverse Gram matrix. -/
def olsWaldF {n : Nat} (x z y : Fin n → Rat) (dfResid : Rat) : Rat :=
  let sxx := dot x x
  let sxz := dot x z
  let szz := dot z z
  let sxy := dot x y
  let szy := dot z y
  let syy := dot y y
  let det := sxx * szz - sxz ^ 2
  let b1 := (szz * sxy - sxz * szy) / det
  let b2 := (sxx * szy - sxz * sxy) / det
  let rssW := syy - b1 * sxy - b2 * szy
  b1 ^ 2 / (rssW / dfResid * (szz / det))

/-- Modelled from the spec: the two permutation schemes of the missing
permutation generator (spec section 4.3). -/
inductive PermScheme where
  | labelPerm
  | signFlip
deriving DecidableEq

/-- Modelled from the spec: the scheme choice of the missing
`permuted_ols` — sign flips exactly when the tested column is modelled
as a constant/intercept term, label permutations otherwise (spec
section 4.3). -/
def chooseScheme {n : Nat} (tested : Fin n → Rat) : PermScheme :=
  if isConstantVec tested then PermScheme.signFlip else PermScheme.labelPerm

/-- Modelled from the spec: applying one sign-flip descriptor — an
independent ±1 vector, encoded by which coordinates are flipped — to the
tested column (spec section 4.3). -/
def applySignFlip {n : Nat} (s : Fin n → Bool) (x : Fin n → Rat) : Fin n → Rat :=
  fun i => (if s i then -1 else 1) * x i

/-- Modelled from the spec: applying one label-permutation descriptor —
a reordering of the sample index — to the tested column (spec
section 4.3). -/
def applyLabelPerm {n : Nat} (p : Equiv.Perm (Fin n)) (x : Fin n → Rat) : Fin n → Rat :=
  fun i => x (p i)

/-- Concrete tested column used to witness the engine theorems. -/
def wX : Fin 4 → Rat := ![1, 2, 3, 5]

/-- Concrete confounding column used to witness the engine theorems. -/
def wZ : Fin 4 → Rat := ![1, 0, 2, 1]

/-- Concrete target column used to witness the engine theorems. -/
def wY : Fin 4 → Rat := ![2, 1, 4, 3]

/-! Lemmas about the accumulator. -/

lemma mem_retained (thr : Rat) (iterId : Nat) :
    ∀ (s : List Rat) (off : Nat) (e : ScoreEntry),
      e ∈ retained thr iterId off s ↔
        ∃ j v, s.get? j = some v ∧ thr ≤ v ∧ e = ScoreEntry.mk iterId 0 (off + j) v := by
  intro s
  induction s with
  | nil => intro off e; simp [retained]
  | cons v rest ih =>
      intro off e
      simp only [retained, List.mem_append, ih (off + 1) e]
      constructor
      · rintro (h | ⟨j, w, hj, hw, he⟩)
        · by_cases hv : thr ≤ v
          · simp only [if_pos hv, List.mem_singleton] at h
            exact ⟨0, v, by simp, hv, by simpa using h⟩
          · simp [if_neg hv] at h
        · exact ⟨j + 1, w, by simpa using hj, hw, by simpa [Nat.add_assoc, Nat.add_comm 1 j] using he⟩
      · rintro ⟨j, w, hj, hw, he⟩
        cases j with
        | zero =>
            left
            simp only [List.get?_cons_zero, Option.some.injEq] at hj
            subst hj
            simp [if_pos hw, he]
        | succ j =>
            right
            exact ⟨j, w, by simpa using hj, hw, by simpa [Nat.add_assoc, Nat.add_comm 1 j] using he⟩

lemma retained_y_id_lower (thr : Rat) (iterId : Nat) :
    ∀ (s : List Rat) (off : Nat) (e : ScoreEntry), e ∈ retained thr iterId off s → off ≤ e.y_id := by
  intro s
  induction s with
  | nil => intro off e h; simp [retained] at h
  | cons v rest ih =>
      intro off e h
      simp only [retained, List.mem_append] at h
      rcases h with h | h
      · by_cases hv : thr ≤ v
        · simp only [if_pos hv, List.mem_singleton] at h
          subst h
          exact Nat.le_refl _
        · simp [if_neg hv] at h
      · exact Nat.le_of_succ_le (ih (off + 1) e h)

lemma retained_pairwise (thr : Rat) (iterId : Nat) :
    ∀ (s : List Rat) (off : Nat),
      List.Pairwise (fun a b => a.y_id < b.y_id) (retained thr iterId off s) := by
  intro s
  induction s with
  | nil => intro off; simp [retained]
  | cons v rest ih =>
      intro off
      simp only [retained]
      by_cases hv : thr ≤ v
      · simp only [if_pos hv, List.singleton_append, List.pairwise_cons]
        refine ⟨fun b hb => ?_, ih (off + 1)⟩
        exact Nat.lt_of_lt_of_le (Nat.lt_succ_self off) (retained_y_id_lower thr iterId rest (off + 1) b hb)
      · simpa [if_neg hv] using ih (off + 1)

/-- C1 (counterexample): the claim says `append` retains exactly the
entries whose score strictly exceeds the threshold; but on the toy
input of `test_gsarray_append_data` (threshold 8, scores 0..9) the
entry with score exactly 8 is retained although 8 does not exceed 8. -/
theorem gsa_append_strict_exceeds_counterexample :
    ScoreEntry.mk 0 0 8 8 ∈
      ((GrowableSparseArray.mk 10 8 []).append 0
        [0, 1, 2, 3, 4, 5, 6, 7, 8, 9] 0).getData ∧
    ¬ ((8 : Rat) > 8) := by
  constructor
  · decide
  · decide

/-- C1 (amended: the retention comparison is inclusive, score ≥
threshold, as the toy case of `test_gsarray_append_data` pins): for
every threshold and every score vector, `append iterId scores yOffset`
appends, after the previously stored entries and in insertion (target
id) order, exactly those entries whose score is at least the
accumulator's threshold, each with the given iteration id as `iter_id`,
`x_id = 0`, and target id `yOffset + j` for the j-th score, as returned
by `get_data()`. -/
theorem gsa_append_retains_iff (g : GrowableSparseArray) (iterId : Nat)
    (scores : List Rat) (yOffset : Nat) :
    (g.append iterId scores yOffset).getData
        = g.entries ++ retained g.threshold iterId yOffset scores ∧
    (∀ e, e ∈ retained g.threshold iterId yOffset scores ↔
        ∃ j v, scores.get? j = some v ∧ g.threshold ≤ v ∧
          e = ScoreEntry.mk iterId 0 (yOffset + j) v) ∧
    List.Pairwise (fun a b => a.y_id < b.y_id)
      (retained g.threshold iterId yOffset scores) := by
  refine ⟨rfl, ?_, retained_pairwise _ _ _ _⟩
  intro e
  exact mem_retained g.threshold iterId scores yOffset e

lemma mergeList_ok_n_iter :
    ∀ (l : List GrowableSparseArray) (self : GrowableSparseArray)
      (r : GrowableSparseArray × Bool), self.mergeList l = Except.ok r →
      ∀ g ∈ l, g.n_iter = self.n_iter := by
  intro l
  induction l with
  | nil => intro self r _ g hg; simp at hg
  | cons a as ih =>
      intro self r hok g hg
      simp only [GrowableSparseArray.mergeList] at hok
      rcases hm : self.merge1 a with e | p
      · rw [hm] at hok; simp at hok
      · rw [hm] at hok
        obtain ⟨s2, w⟩ := p
        have hs2 : a.n_iter = self.n_iter ∧ s2.n_iter = self.n_iter := by
          by_cases hna : a.n_iter = self.n_iter
          · simp only [GrowableSparseArray.merge1, hna, ne_eq, not_true_eq_false,
              if_false, Except.ok.injEq, Prod.mk.injEq] at hm
            exact ⟨hna, by rw [← hm.1]⟩
          · simp [GrowableSparseArray.merge1, hna] at hm
        rcases List.mem_cons.mp hg with rfl | hgas
        · exact hs2.1
        · dsimp only at hok
          rcases hmm : s2.mergeList as with e2 | r2
          · rw [hmm] at hok
            simp at hok
          · exact (ih s2 r2 hmm g hgas).trans hs2.2

/-- C3: merging a source accumulator (matching `n_iter`) into a target
whose threshold is strictly higher keeps, after the target's own
entries, exactly the source entries meeting the higher threshold
(dropping those below it), and the merged result's threshold is the
maximum of the two thresholds; no warning is raised in this
direction. -/
theorem gsa_merge_into_higher_threshold (self other : GrowableSparseArray)
    (hn : other.n_iter = self.n_iter) (ht : other.threshold < self.threshold) :
    self.merge1 other = Except.ok
      (GrowableSparseArray.mk self.n_iter (max self.threshold other.threshold)
        (self.entries ++ other.entries.filter
          (fun e => max self.threshold other.threshold ≤ e.score)), false) := by
  have hmax : max self.threshold other.threshold = self.threshold := max_eq_left ht.le
  simp [GrowableSparseArray.merge1, hn, ht, lt_asymm ht, hmax]

theorem gsa_merge_into_higher_threshold_witness :
    ((GrowableSparseArray.mk 1 0 [ScoreEntry.mk 0 0 0 1]).threshold
        < (GrowableSparseArray.mk 1 2 ([] : List ScoreEntry)).threshold) ∧
    (GrowableSparseArray.mk 1 2 ([] : List ScoreEntry)).merge1
        (GrowableSparseArray.mk 1 0 [ScoreEntry.mk 0 0 0 1]) = Except.ok
      (GrowableSparseArray.mk (GrowableSparseArray.mk 1 2 ([] : List ScoreEntry)).n_iter
        (max (GrowableSparseArray.mk 1 2 ([] : List ScoreEntry)).threshold
          (GrowableSparseArray.mk 1 0 [ScoreEntry.mk 0 0 0 1]).threshold)
        ((GrowableSparseArray.mk 1 2 ([] : List ScoreEntry)).entries ++
          (GrowableSparseArray.mk 1 0 [ScoreEntry.mk 0 0 0 1]).entries.filter
            (fun e => max (GrowableSparseArray.mk 1 2 ([] : List ScoreEntry)).threshold
              (GrowableSparseArray.mk 1 0 [ScoreEntry.mk 0 0 0 1]).threshold ≤ e.score)),
       false) :=
  ⟨by decide,
    gsa_merge_into_higher_threshold (GrowableSparseArray.mk 1 2 [])
      (GrowableSparseArray.mk 1 0 [ScoreEntry.mk 0 0 0 1]) rfl (by decide)⟩

/-- C4 (counterexample): the claim says the information-loss warning is
raised exactly on merges with `other.threshold < self.threshold`; but in
the configuration of `test_gsarray_merge` (source threshold 1 merged
into target threshold 0, matching `n_iter`) the source threshold is not
lower than the target's and a warning is nonetheless raised. -/
theorem gsa_merge_warning_counterexample :
    ¬ ((GrowableSparseArray.mk 1 1 [ScoreEntry.mk 0 0 0 1]).threshold
        < (GrowableSparseArray.mk 1 0 ([] : List ScoreEntry)).threshold) ∧
    mergeWarned ((GrowableSparseArray.mk 1 0 ([] : List ScoreEntry)).merge1
      (GrowableSparseArray.mk 1 1 [ScoreEntry.mk 0 0 0 1])) = true := by
  exact ⟨by decide, by decide⟩

/-- C4 (amended: the warning direction is reversed — on merges of
matching `n_iter`, the potential-information-loss warning is raised
exactly when the source threshold is strictly higher than the target's,
as `test_gsarray_merge` pins; when the source threshold is strictly
lower, the source entries are filtered by the target's threshold with
no warning). -/
theorem gsa_merge_warning_iff (self other : GrowableSparseArray)
    (hn : other.n_iter = self.n_iter) :
    (mergeWarned (self.merge1 other) = true ↔ self.threshold < other.threshold) ∧
    (other.threshold < self.threshold →
      mergedEntries (self.merge1 other)
        = ((self.entries ++ other.entries.filter (fun e => self.threshold ≤ e.score) :
            List ScoreEntry) : Multiset ScoreEntry)) := by
  constructor
  · simp [GrowableSparseArray.merge1, hn, mergeWarned]
  · intro ht
    simp [GrowableSparseArray.merge1, hn, ht, mergedEntries]

theorem gsa_merge_warning_iff_witness :
    ((GrowableSparseArray.mk 1 1 [ScoreEntry.mk 0 0 0 1]).n_iter
        = (GrowableSparseArray.mk 1 0 ([] : List ScoreEntry)).n_iter) ∧
    (mergeWarned ((GrowableSparseArray.mk 1 0 ([] : List ScoreEntry)).merge1
        (GrowableSparseArray.mk 1 1 [ScoreEntry.mk 0 0 0 1])) = true ↔
      (GrowableSparseArray.mk 1 0 ([] : List ScoreEntry)).threshold
        < (GrowableSparseArray.mk 1 1 [ScoreEntry.mk 0 0 0 1]).threshold) :=
  ⟨rfl, (gsa_merge_warning_iff (GrowableSparseArray.mk 1 0 [])
    (GrowableSparseArray.mk 1 1 [ScoreEntry.mk 0 0 0 1]) rfl).1⟩

/-- C5: merging fails with the configuration-mismatch error whenever the
`n_iter` values differ, fails with a type error on a non-accumulator
argument, and a list argument containing any accumulator of mismatched
`n_iter` never merges successfully; an `Except.error` result carries no
modified accumulator, so the target's stored entries are untouched. -/
theorem gsa_merge_failures (self other : GrowableSparseArray)
    (l : List GrowableSparseArray) (hn : other.n_iter ≠ self.n_iter) :
    self.merge (MergeArg.one other) = Except.error MergeError.nIterMismatch ∧
    self.merge MergeArg.notAnAccumulator = Except.error MergeError.typeError ∧
    ((∃ g ∈ l, g.n_iter ≠ self.n_iter) →
      ∀ r, self.merge (MergeArg.many l) ≠ Except.ok r) := by
  refine ⟨?_, rfl, ?_⟩
  · simp [GrowableSparseArray.merge, GrowableSparseArray.mergeList,
      GrowableSparseArray.merge1, hn]
  · rintro ⟨g, hg, hne⟩ r hok
    simp only [GrowableSparseArray.merge] at hok
    exact hne (mergeList_ok_n_iter l self r hok g hg)

theorem gsa_merge_failures_witness :
    ((GrowableSparseArray.mk 1 0 ([] : List ScoreEntry)).n_iter
        ≠ (GrowableSparseArray.mk 2 0 ([] : List ScoreEntry)).n_iter) ∧
    (GrowableSparseArray.mk 2 0 ([] : List ScoreEntry)).merge
        (MergeArg.one (GrowableSparseArray.mk 1 0 ([] : List ScoreEntry)))
      = Except.error MergeError.nIterMismatch :=
  ⟨by decide, (gsa_merge_failures (GrowableSparseArray.mk 2 0 [])
    (GrowableSparseArray.mk 1 0 []) [] (by decide)).1⟩

/-- Left-grouped merge of three accumulators, discarding warnings. -/
def mergeLeftGrouped (a b c : GrowableSparseArray) :
    Except MergeError (GrowableSparseArray × Bool) :=
  match a.merge1 b with
  | Except.error e => Except.error e
  | Except.ok (g, _) => g.merge1 c

/-- Right-grouped merge of three accumulators, discarding warnings. -/
def mergeRightGrouped (a b c : GrowableSparseArray) :
    Except MergeError (GrowableSparseArray × Bool) :=
  match b.merge1 c with
  | Except.error e => Except.error e
  | Except.ok (g, _) => a.merge1 g

/-- C6: for accumulators of equal threshold and matching `n_iter`, the
retained-entry multiset of a merge is commutative and independent of
grouping; and a source with a strictly higher threshold never
contributes more entries than those meeting the higher threshold (its
entries all meeting its own threshold, the accumulator invariant). -/
theorem gsa_merge_algebra (a b c : GrowableSparseArray) :
    (a.threshold = b.threshold → a.n_iter = b.n_iter →
      mergedEntries (a.merge1 b) = mergedEntries (b.merge1 a)) ∧
    (a.threshold = b.threshold → b.threshold = c.threshold →
      a.n_iter = b.n_iter → b.n_iter = c.n_iter →
      mergedEntries (mergeLeftGrouped a b c) = mergedEntries (mergeRightGrouped a b c)) ∧
    (a.threshold < b.threshold → b.n_iter = a.n_iter →
      (∀ e ∈ b.entries, b.threshold ≤ e.score) →
      Multiset.card (mergedEntries (a.merge1 b))
        ≤ a.entries.length + (b.entries.filter (fun e => b.threshold ≤ e.score)).length) := by
  refine ⟨?_, ?_, ?_⟩
  · intro ht hn
    simp only [GrowableSparseArray.merge1, hn, ht, ne_eq, not_true_eq_false, if_false,
      lt_irrefl, if_neg, mergedEntries]
    rw [Multiset.coe_eq_coe]
    exact List.perm_append_comm
  · intro ht ht2 hn hn2
    simp only [mergeLeftGrouped, mergeRightGrouped, GrowableSparseArray.merge1,
      hn, hn2, ht, ht2, ne_eq, not_true_eq_false, if_false, lt_irrefl, if_neg,
      max_self, mergedEntries]
    rw [Multiset.coe_eq_coe, List.append_assoc]
  · intro hlt hn hinv
    simp only [GrowableSparseArray.merge1, hn, ne_eq, not_true_eq_false, if_false,
      if_neg (lt_asymm hlt), mergedEntries, Multiset.coe_card, List.length_append]
    rw [List.filter_eq_self.mpr (fun e he => decide_eq_true (hinv e he))]

theorem gsa_merge_algebra_witness :
    ((GrowableSparseArray.mk 1 0 [ScoreEntry.mk 0 0 0 1]).threshold
        = (GrowableSparseArray.mk 1 0 [ScoreEntry.mk 0 0 1 2]).threshold) ∧
    mergedEntries ((GrowableSparseArray.mk 1 0 [ScoreEntry.mk 0 0 0 1]).merge1
        (GrowableSparseArray.mk 1 0 [ScoreEntry.mk 0 0 1 2]))
      = mergedEntries ((GrowableSparseArray.mk 1 0 [ScoreEntry.mk 0 0 1 2]).merge1
        (GrowableSparseArray.mk 1 0 [ScoreEntry.mk 0 0 0 1])) :=
  ⟨rfl, (gsa_merge_algebra (GrowableSparseArray.mk 1 0 [ScoreEntry.mk 0 0 0 1])
    (GrowableSparseArray.mk 1 0 [ScoreEntry.mk 0 0 1 2])
    (GrowableSparseArray.mk 1 0 [])).1 rfl rfl⟩

/-- C2: with a null distribution of length `n_perm ≥ 1`, the corrected
p-value of a true score `s` is `-log10((count(null >= s) + 1) /
(n_perm + 1))`, equivalently `log10((n_perm + 1) / (count + 1))`; it
always lies in `[0, log10(n_perm + 1)]`, and it attains
`log10(n_perm + 1)` whenever `s` exceeds every null value. -/
theorem pvalue_formula_and_range (h0 : List Rat) (s : Rat) (nperm : Nat)
    (hlen : h0.length = nperm) (hp : 1 ≤ nperm) :
    negLog10PValue h0 s
        = Real.logb 10 (((nperm : Real) + 1) / ((nullCountGE h0 s : Real) + 1)) ∧
    0 ≤ negLog10PValue h0 s ∧
    negLog10PValue h0 s ≤ Real.logb 10 ((nperm : Real) + 1) ∧
    ((∀ v ∈ h0, v < s) → negLog10PValue h0 s = Real.logb 10 ((nperm : Real) + 1)) := by
  have hc : nullCountGE h0 s ≤ nperm := by
    rw [← hlen]
    exact List.length_filter_le _ _
  have hcpos : (0 : Real) < (nullCountGE h0 s : Real) + 1 := by positivity
  have hnpos : (0 : Real) < (nperm : Real) + 1 := by positivity
  have hcle : (nullCountGE h0 s : Real) + 1 ≤ (nperm : Real) + 1 := by
    have h := (Nat.cast_le.mpr hc : ((nullCountGE h0 s : Nat) : Real) ≤ ((nperm : Nat) : Real))
    linarith
  have hb : (1 : Real) < 10 := by norm_num
  have hformula : negLog10PValue h0 s
      = Real.logb 10 (((nperm : Real) + 1) / ((nullCountGE h0 s : Real) + 1)) := by
    unfold negLog10PValue
    rw [hlen, Real.logb_div (ne_of_gt hcpos) (ne_of_gt hnpos),
      Real.logb_div (ne_of_gt hnpos) (ne_of_gt hcpos)]
    ring
  have hratio1 : (1 : Real) ≤ ((nperm : Real) + 1) / ((nullCountGE h0 s : Real) + 1) :=
    (one_le_div hcpos).mpr hcle
  refine ⟨hformula, ?_, ?_, ?_⟩
  · rw [hformula]
    exact Real.logb_nonneg hb hratio1
  · rw [hformula]
    refine Real.logb_le_logb_of_le hb (lt_of_lt_of_le one_pos hratio1) ?_
    have h1c : (1 : Real) ≤ (nullCountGE h0 s : Real) + 1 := by
      have h := (Nat.cast_nonneg (nullCountGE h0 s) : (0 : Real) ≤ _)
      linarith
    exact div_le_self (le_of_lt hnpos) h1c
  · intro hall
    have hzero : nullCountGE h0 s = 0 := by
      unfold nullCountGE
      rw [List.length_eq_zero]
      rw [List.filter_eq_nil_iff]
      intro v hv
      simp only [decide_eq_true_eq, not_le]
      exact hall v hv
    rw [hformula, hzero]
    norm_num

theorem pvalue_formula_and_range_witness :
    (([1, 2, 3] : List Rat).length = 3 ∧ 1 ≤ 3) ∧
    0 ≤ negLog10PValue [1, 2, 3] 10 ∧
    negLog10PValue [1, 2, 3] 10 = Real.logb 10 ((3 : Real) + 1) :=
  ⟨⟨rfl, by decide⟩,
    (pvalue_formula_and_range [1, 2, 3] 10 3 rfl (by decide)).2.1,
    (pvalue_formula_and_range [1, 2, 3] 10 3 rfl (by decide)).2.2.2 (by decide)⟩

/-! Bilinearity of the dot product over the projection steps. -/

lemma dot_comm {n : Nat} (u v : Fin n → Rat) : dot u v = dot v u :=
  Finset.sum_congr rfl (fun _ _ => mul_comm _ _)

lemma dot_ones_ones {n : Nat} : dot (onesV n) (onesV n) = n := by
  simp [dot, onesV]

lemma dot_ones_left {n : Nat} (v : Fin n → Rat) : dot (onesV n) v = ∑ i, v i := by
  simp [dot, onesV]

lemma dot_expand {n : Nat} (a b c d : Fin n → Rat) (p q : Rat) :
    dot (fun i => a i - p * c i) (fun i => b i - q * d i)
      = dot a b - q * dot a d - p * dot c b + p * q * dot c d := by
  have h : ∀ i, (a i - p * c i) * (b i - q * d i)
      = a i * b i - q * (a i * d i) - p * (c i * b i) + p * q * (c i * d i) := by
    intro i; ring
  simp only [dot]
  rw [Finset.sum_congr rfl (fun i _ => h i), Finset.sum_add_distrib,
    Finset.sum_sub_distrib, Finset.sum_sub_distrib,
    ← Finset.mul_sum, ← Finset.mul_sum, ← Finset.mul_sum]

lemma dot_residualize_pair {n : Nat} (a b c : Fin n → Rat) (h : dot c c ≠ 0) :
    dot (residualize a c) (residualize b c)
      = dot a b - dot c a * dot c b / dot c c := by
  unfold residualize
  rw [if_neg h, if_neg h]
  rw [dot_expand a b c c (dot c a / dot c c) (dot c b / dot c c)]
  rw [dot_comm a c]
  field_simp
  ring

lemma residualize_ones {n : Nat} (hn : (n : Rat) ≠ 0) (y : Fin n → Rat) :
    residualize y (onesV n) = centerV y := by
  unfold residualize centerV
  rw [if_neg (by rw [dot_ones_ones]; exact hn)]
  funext i
  rw [dot_ones_ones, dot_ones_left]
  simp [onesV]

lemma dot_center_pair {n : Nat} (hn : (n : Rat) ≠ 0) (a b : Fin n → Rat) :
    dot (centerV a) (centerV b)
      = dot a b - dot (onesV n) a * dot (onesV n) b / n := by
  rw [← residualize_ones hn a, ← residualize_ones hn b,
    dot_residualize_pair a b (onesV n) (by rw [dot_ones_ones]; exact hn),
    dot_ones_ones]

lemma engine_matches_f_regression_nocenter {n : Nat} (x y : Fin n → Rat)
    (hxx : dot x x ≠ 0) (hyy : dot y y ≠ 0)
    (hD : dot x x * dot y y - dot x y ^ 2 ≠ 0) :
    fScore x y [] = fRegressionNoCenter x y := by
  simp only [fScore, residual, orthoBasis, List.foldl, fRegressionNoCenter,
    List.length_nil, Nat.cast_zero, sub_zero]
  have hR : dot y y - dot x y ^ 2 / dot x x
      = (dot x x * dot y y - dot x y ^ 2) / dot x x := by
    field_simp; ring
  have hnum : dot y y - (dot x x * dot y y - dot x y ^ 2) / dot x x
      = dot x y ^ 2 / dot x x := by
    field_simp; ring
  rw [hR, hnum]
  field_simp
  ring

lemma engine_matches_f_regression_center {n : Nat} (x y : Fin n → Rat)
    (hconst : isConstantVec x = false) (hn : (n : Rat) ≠ 0)
    (hxx : dot (centerV x) (centerV x) ≠ 0) (hyy : dot (centerV y) (centerV y) ≠ 0)
    (hD : dot (centerV x) (centerV x) * dot (centerV y) (centerV y)
        - dot (centerV x) (centerV y) ^ 2 ≠ 0) :
    permutedOlsTrueScore x y [] true = fRegressionCenter x y := by
  simp only [permutedOlsTrueScore, hconst, Bool.not_false, Bool.and_self,
    if_true, List.nil_append]
  simp only [fScore, residual, orthoBasis, orthoStep, List.foldl_cons, List.foldl_nil,
    List.nil_append, fRegressionCenter, List.length_singleton, Nat.cast_one]
  rw [residualize_ones hn x, residualize_ones hn y]
  have hR : dot (centerV y) (centerV y)
        - dot (centerV x) (centerV y) ^ 2 / dot (centerV x) (centerV x)
      = (dot (centerV x) (centerV x) * dot (centerV y) (centerV y)
        - dot (centerV x) (centerV y) ^ 2) / dot (centerV x) (centerV x) := by
    field_simp; ring
  have hnum : dot (centerV y) (centerV y)
        - (dot (centerV x) (centerV x) * dot (centerV y) (centerV y)
          - dot (centerV x) (centerV y) ^ 2) / dot (centerV x) (centerV x)
      = dot (centerV x) (centerV y) ^ 2 / dot (centerV x) (centerV x) := by
    field_simp; ring
  rw [hR, hnum]
  field_simp
  ring

lemma engine_matches_wald_onecovar {n : Nat} (x z y : Fin n → Rat)
    (hzz : dot z z ≠ 0)
    (hdet : dot x x * dot z z - dot x z ^ 2 ≠ 0)
    (hG3 : dot y y * (dot x x * dot z z - dot x z ^ 2)
        - dot z z * dot x y ^ 2
        + 2 * dot x z * dot x y * dot z y
        - dot x x * dot z y ^ 2 ≠ 0) :
    fScore x y [z] = olsWaldF x z y ((n : Rat) - 2) := by
  simp only [fScore, residual, orthoBasis, orthoStep, List.foldl_cons, List.foldl_nil,
    List.nil_append, olsWaldF, List.length_singleton, Nat.cast_one]
  rw [dot_residualize_pair x y z hzz, dot_residualize_pair x x z hzz,
    dot_residualize_pair y y z hzz, dot_comm z x]
  have e1 : dot x x - dot x z * dot x z / dot z z
      = (dot x x * dot z z - dot x z ^ 2) / dot z z := by
    field_simp; ring
  have e2 : dot x y - dot x z * dot z y / dot z z
      = (dot x y * dot z z - dot x z * dot z y) / dot z z := by
    field_simp
  have e3 : dot y y - dot z y * dot z y / dot z z
      = (dot y y * dot z z - dot z y ^ 2) / dot z z := by
    field_simp; ring
  rw [e1, e2, e3]
  have e4 : (dot y y * dot z z - dot z y ^ 2) / dot z z
        - ((dot x y * dot z z - dot x z * dot z y) / dot z z) ^ 2
          / ((dot x x * dot z z - dot x z ^ 2) / dot z z)
      = (dot y y * (dot x x * dot z z - dot x z ^ 2)
          - dot z z * dot x y ^ 2
          + 2 * dot x z * dot x y * dot z y
          - dot x x * dot z y ^ 2)
        / (dot x x * dot z z - dot x z ^ 2) := by
    field_simp
    ring
  rw [e4]
  have e5 : (dot y y * dot z z - dot z y ^ 2) / dot z z
        - (dot y y * (dot x x * dot z z - dot x z ^ 2)
            - dot z z * dot x y ^ 2
            + 2 * dot x z * dot x y * dot z y
            - dot x x * dot z y ^ 2)
          / (dot x x * dot z z - dot x z ^ 2)
      = (dot x y * dot z z - dot x z * dot z y) ^ 2
        / (dot z z * (dot x x * dot z z - dot x z ^ 2)) := by
    field_simp
    ring
  rw [e5]
  have e6 : dot y y
        - (dot z z * dot x y - dot x z * dot z y)
            / (dot x x * dot z z - dot x z ^ 2) * dot x y
        - (dot x x * dot z y - dot x z * dot x y)
            / (dot x x * dot z z - dot x z ^ 2) * dot z y
      = (dot y y * (dot x x * dot z z - dot x z ^ 2)
          - dot z z * dot x y ^ 2
          + 2 * dot x z * dot x y * dot z y
          - dot x x * dot z y ^ 2)
        / (dot x x * dot z z - dot x z ^ 2) := by
    field_simp
    ring
  rw [e6]
  rw [div_div_eq_mul_div, div_div_eq_mul_div]
  field_simp
  ring

lemma resid_f_matches_wald {n : Nat} (x z y : Fin n → Rat) (df : Rat)
    (hzz : dot z z ≠ 0)
    (hdet : dot x x * dot z z - dot x z ^ 2 ≠ 0)
    (hG3 : dot y y * (dot x x * dot z z - dot x z ^ 2)
        - dot z z * dot x y ^ 2
        + 2 * dot x z * dot x y * dot z y
        - dot x x * dot z y ^ 2 ≠ 0) :
    (dot (residualize y z) (residualize y z)
        - (dot (residualize y z) (residualize y z)
            - dot (residualize x z) (residualize y z) ^ 2
              / dot (residualize x z) (residualize x z)))
      / ((dot (residualize y z) (residualize y z)
            - dot (residualize x z) (residualize y z) ^ 2
              / dot (residualize x z) (residualize x z)) / df)
      = olsWaldF x z y df := by
  simp only [olsWaldF]
  rw [dot_residualize_pair x y z hzz, dot_residualize_pair x x z hzz,
    dot_residualize_pair y y z hzz, dot_comm z x]
  have e1 : dot x x - dot x z * dot x z / dot z z
      = (dot x x * dot z z - dot x z ^ 2) / dot z z := by
    field_simp; ring
  have e2 : dot x y - dot x z * dot z y / dot z z
      = (dot x y * dot z z - dot x z * dot z y) / dot z z := by
    field_simp
  have e3 : dot y y - dot z y * dot z y / dot z z
      = (dot y y * dot z z - dot z y ^ 2) / dot z z := by
    field_simp; ring
  rw [e1, e2, e3]
  have e4 : (dot y y * dot z z - dot z y ^ 2) / dot z z
        - ((dot x y * dot z z - dot x z * dot z y) / dot z z) ^ 2
          / ((dot x x * dot z z - dot x z ^ 2) / dot z z)
      = (dot y y * (dot x x * dot z z - dot x z ^ 2)
          - dot z z * dot x y ^ 2
          + 2 * dot x z * dot x y * dot z y
          - dot x x * dot z y ^ 2)
        / (dot x x * dot z z - dot x z ^ 2) := by
    field_simp
    ring
  rw [e4]
  have e5 : (dot y y * dot z z - dot z y ^ 2) / dot z z
        - (dot y y * (dot x x * dot z z - dot x z ^ 2)
            - dot z z * dot x y ^ 2
            + 2 * dot x z * dot x y * dot z y
            - dot x x * dot z y ^ 2)
          / (dot x x * dot z z - dot x z ^ 2)
      = (dot x y * dot z z - dot x z * dot z y) ^ 2
        / (dot z z * (dot x x * dot z z - dot x z ^ 2)) := by
    field_simp
    ring
  rw [e5]
  have e6 : dot y y
        - (dot z z * dot x y - dot x z * dot z y)
            / (dot x x * dot z z - dot x z ^ 2) * dot x y
        - (dot x x * dot z y - dot x z * dot x y)
            / (dot x x * dot z z - dot x z ^ 2) * dot z y
      = (dot y y * (dot x x * dot z z - dot x z ^ 2)
          - dot z z * dot x y ^ 2
          + 2 * dot x z * dot x y * dot z y
          - dot x x * dot z y ^ 2)
        / (dot x x * dot z z - dot x z ^ 2) := by
    field_simp
    ring
  rw [e6]
  rw [div_div_eq_mul_div, div_div_eq_mul_div]
  field_simp
  ring

lemma dot_resid2_eq_center {n : Nat} (a b z : Fin n → Rat)
    (hn : (n : Rat) ≠ 0) (hzz : dot z z ≠ 0)
    (hP : (n : Rat) * dot z z - dot (onesV n) z ^ 2 ≠ 0) :
    dot (residualize (residualize a z) (residualize (onesV n) z))
        (residualize (residualize b z) (residualize (onesV n) z))
      = dot (residualize (centerV a) (centerV z))
          (residualize (centerV b) (centerV z)) := by
  have hPc : dot z z * (n : Rat) - dot (onesV n) z ^ 2 ≠ 0 := by
    rw [mul_comm]; exact hP
  have hoo : dot (residualize (onesV n) z) (residualize (onesV n) z) ≠ 0 := by
    rw [dot_residualize_pair (onesV n) (onesV n) z hzz, dot_ones_ones, dot_comm z (onesV n)]
    have e : (n : Rat) - dot (onesV n) z * dot (onesV n) z / dot z z
        = ((n : Rat) * dot z z - dot (onesV n) z ^ 2) / dot z z := by
      field_simp; ring
    rw [e]
    exact div_ne_zero hP hzz
  have hzc : dot (centerV z) (centerV z) ≠ 0 := by
    rw [dot_center_pair hn z z]
    have e : dot z z - dot (onesV n) z * dot (onesV n) z / (n : Rat)
        = (dot z z * (n : Rat) - dot (onesV n) z ^ 2) / (n : Rat) := by
      field_simp; ring
    rw [e]
    exact div_ne_zero hPc hn
  rw [dot_residualize_pair (residualize a z) (residualize b z) (residualize (onesV n) z) hoo,
    dot_residualize_pair a b z hzz,
    dot_residualize_pair (onesV n) a z hzz,
    dot_residualize_pair (onesV n) b z hzz,
    dot_residualize_pair (onesV n) (onesV n) z hzz,
    dot_ones_ones,
    dot_residualize_pair (centerV a) (centerV b) (centerV z) hzc,
    dot_center_pair hn a b, dot_center_pair hn z a, dot_center_pair hn z b,
    dot_center_pair hn z z,
    dot_comm z (onesV n)]
  have hA : (n : Rat) - dot (onesV n) z * dot (onesV n) z / dot z z
      = ((n : Rat) * dot z z - dot (onesV n) z ^ 2) / dot z z := by
    field_simp; ring
  have hB : dot z z - dot (onesV n) z * dot (onesV n) z / (n : Rat)
      = (dot z z * (n : Rat) - dot (onesV n) z ^ 2) / (n : Rat) := by
    field_simp; ring
  rw [hA, hB]
  field_simp
  ring

lemma engine_matches_wald_centered {n : Nat} (x z y : Fin n → Rat)
    (hconst : isConstantVec x = false)
    (hn : (n : Rat) ≠ 0) (hzz : dot z z ≠ 0)
    (hP : (n : Rat) * dot z z - dot (onesV n) z ^ 2 ≠ 0)
    (hzc : dot (centerV z) (centerV z) ≠ 0)
    (hdetc : dot (centerV x) (centerV x) * dot (centerV z) (centerV z)
        - dot (centerV x) (centerV z) ^ 2 ≠ 0)
    (hG3c : dot (centerV y) (centerV y)
          * (dot (centerV x) (centerV x) * dot (centerV z) (centerV z)
            - dot (centerV x) (centerV z) ^ 2)
        - dot (centerV z) (centerV z) * dot (centerV x) (centerV y) ^ 2
        + 2 * dot (centerV x) (centerV z) * dot (centerV x) (centerV y)
            * dot (centerV z) (centerV y)
        - dot (centerV x) (centerV x) * dot (centerV z) (centerV y) ^ 2 ≠ 0) :
    permutedOlsTrueScore x y [z] true
      = olsWaldF (centerV x) (centerV z) (centerV y) ((n : Rat) - 3) := by
  simp only [permutedOlsTrueScore, hconst, Bool.not_false, Bool.and_self, if_true,
    List.cons_append, List.nil_append]
  simp only [fScore, residual, orthoBasis, orthoStep, List.foldl_cons, List.foldl_nil,
    List.nil_append, List.singleton_append, List.length_cons, List.length_singleton,
    List.length_nil, Nat.cast_ofNat]
  rw [dot_resid2_eq_center y y z hn hzz hP,
    dot_resid2_eq_center x y z hn hzz hP,
    dot_resid2_eq_center x x z hn hzz hP]
  simp only [show ((0 : Nat) + 1 + 1) = 2 from rfl, Nat.cast_ofNat]
  rw [show ((n : Rat) - 1 - 2 : Rat) = (n : Rat) - 3 from by ring]
  exact resid_f_matches_wald (centerV x) (centerV z) (centerV y) ((n : Rat) - 3) hzc hdetc hG3c

/-- C7: the true scores of the missing `permuted_ols` (the `n_perm = 0`,
`sparsity_threshold = 1.0` path retains every true score) agree with an
independent reference OLS F-test — exactly, over exact rationals, which
subsumes the 1e-6 tolerance: without confounds against the scikit-learn
`f_regression` statistic (uncentered), with `model_intercept` against
the centered `f_regression` statistic (adding an intercept being
equivalent to centering the variates), with a confounding variable
against the Wald-form `statsmodels` F-test, and with confound plus
intercept against the Wald form on centered variates; each case under
its full-column-rank nondegeneracy conditions. -/
theorem engine_true_scores_match_reference {n : Nat} (x z y : Fin n → Rat) :
    (dot x x ≠ 0 → dot y y ≠ 0 → dot x x * dot y y - dot x y ^ 2 ≠ 0 →
      permutedOlsTrueScore x y [] false = fRegressionNoCenter x y) ∧
    (isConstantVec x = false → (n : Rat) ≠ 0 →
      dot (centerV x) (centerV x) ≠ 0 → dot (centerV y) (centerV y) ≠ 0 →
      dot (centerV x) (centerV x) * dot (centerV y) (centerV y)
        - dot (centerV x) (centerV y) ^ 2 ≠ 0 →
      permutedOlsTrueScore x y [] true = fRegressionCenter x y) ∧
    (dot z z ≠ 0 → dot x x * dot z z - dot x z ^ 2 ≠ 0 →
      dot y y * (dot x x * dot z z - dot x z ^ 2) - dot z z * dot x y ^ 2
        + 2 * dot x z * dot x y * dot z y - dot x x * dot z y ^ 2 ≠ 0 →
      permutedOlsTrueScore x y [z] false = olsWaldF x z y ((n : Rat) - 2)) ∧
    (isConstantVec x = false → (n : Rat) ≠ 0 → dot z z ≠ 0 →
      (n : Rat) * dot z z - dot (onesV n) z ^ 2 ≠ 0 →
      dot (centerV z) (centerV z) ≠ 0 →
      dot (centerV x) (centerV x) * dot (centerV z) (centerV z)
        - dot (centerV x) (centerV z) ^ 2 ≠ 0 →
      dot (centerV y) (centerV y)
          * (dot (centerV x) (centerV x) * dot (centerV z) (centerV z)
            - dot (centerV x) (centerV z) ^ 2)
        - dot (centerV z) (centerV z) * dot (centerV x) (centerV y) ^ 2
        + 2 * dot (centerV x) (centerV z) * dot (centerV x) (centerV y)
            * dot (centerV z) (centerV y)
        - dot (centerV x) (centerV x) * dot (centerV z) (centerV y) ^ 2 ≠ 0 →
      permutedOlsTrueScore x y [z] true
        = olsWaldF (centerV x) (centerV z) (centerV y) ((n : Rat) - 3)) := by
  refine ⟨?_, ?_, ?_, ?_⟩
  · intro h1 h2 h3
    exact engine_matches_f_regression_nocenter x y h1 h2 h3
  · intro hconst hn h1 h2 h3
    exact engine_matches_f_regression_center x y hconst hn h1 h2 h3
  · intro h1 h2 h3
    exact engine_matches_wald_onecovar x z y h1 h2 h3
  · intro hconst hn h1 h2 h3 h4 h5
    exact engine_matches_wald_centered x z y hconst hn h1 h2 h3 h4 h5

theorem engine_true_scores_match_reference_witness :
    permutedOlsTrueScore wX wY [] false = fRegressionNoCenter wX wY ∧
    permutedOlsTrueScore wX wY [] true = fRegressionCenter wX wY ∧
    permutedOlsTrueScore wX wY [wZ] false = olsWaldF wX wZ wY (((4 : Nat) : Rat) - 2) ∧
    permutedOlsTrueScore wX wY [wZ] true
      = olsWaldF (centerV wX) (centerV wZ) (centerV wY) (((4 : Nat) : Rat) - 3) :=
  ⟨(engine_true_scores_match_reference wX wZ wY).1
      (by norm_num [wX, dot, Fin.sum_univ_four])
      (by norm_num [wY, dot, Fin.sum_univ_four])
      (by norm_num [wX, wY, dot, Fin.sum_univ_four]),
   (engine_true_scores_match_reference wX wZ wY).2.1
      (by decide)
      (by norm_num)
      (by norm_num [wX, dot, centerV, Fin.sum_univ_four])
      (by norm_num [wY, dot, centerV, Fin.sum_univ_four])
      (by norm_num [wX, wY, dot, centerV, Fin.sum_univ_four]),
   (engine_true_scores_match_reference wX wZ wY).2.2.1
      (by norm_num [wZ, dot, Fin.sum_univ_four])
      (by norm_num [wX, wZ, dot, Fin.sum_univ_four])
      (by norm_num [wX, wZ, wY, dot, Fin.sum_univ_four]),
   (engine_true_scores_match_reference wX wZ wY).2.2.2
      (by decide)
      (by norm_num)
      (by norm_num [wZ, dot, Fin.sum_univ_four])
      (by norm_num [wZ, dot, onesV, Fin.sum_univ_four])
      (by norm_num [wZ, dot, centerV, Fin.sum_univ_four])
      (by norm_num [wX, wZ, dot, centerV, Fin.sum_univ_four])
      (by norm_num [wX, wZ, wY, dot, centerV, Fin.sum_univ_four])⟩

/-- C8: for a constant all-ones tested column the permutation scheme of
the missing `permuted_ols` is sign-flip, not label-permutation: the
scheme chooser selects sign flips, applying a sign-flip descriptor to
the all-ones column yields exactly its ±1 pattern (the permuted columns
vary in sign), while applying any label permutation to the constant
column is a no-op (its columns can never vary merely in order). -/
theorem intercept_uses_sign_flip (n : Nat) :
    chooseScheme (onesV n) = PermScheme.signFlip ∧
    (∀ s : Fin n → Bool, applySignFlip s (onesV n) = fun i => if s i then -1 else 1) ∧
    (∀ p : Equiv.Perm (Fin n), applyLabelPerm p (onesV n) = onesV n) := by
  have hc : isConstantVec (onesV n) = true := by
    simp [isConstantVec, onesV]
  refine ⟨?_, ?_, ?_⟩
  · simp [chooseScheme, hc]
  · intro s
    funext i
    simp [applySignFlip, onesV]
  · intro p
    funext i
    simp [applyLabelPerm, onesV]

/-- C10: with a constant (all-ones) tested column the `model_intercept`
flag is a no-op on the true scores, with or without confounding
variables — the missing `permuted_ols` only appends an intercept column
when the tested column is not itself constant, so the two runs use
identical designs and the true scores agree exactly (subsuming the 1e-6
tolerance). -/
theorem intercept_flag_noop_for_constant_tested {n : Nat}
    (y : Fin n → Rat) (confounds : List (Fin n → Rat)) :
    permutedOlsTrueScore (onesV n) y confounds true
      = permutedOlsTrueScore (onesV n) y confounds false := by
  have hc : isConstantVec (onesV n) = true := by
    simp [isConstantVec, onesV]
  simp [permutedOlsTrueScore, hc]

end NilearnSpec
